import Mathlib

/-!
Formal model of the `github-lang-stats` repository (TypeScript sources:
`src/cache.ts`, `src/github-client.ts`, `src/aggregator.ts`,
`src/language-detector.ts`, `src/index.ts`).

JavaScript objects used as string-keyed dictionaries are modelled as
insertion-ordered association lists: assigning to an existing key updates the
value in place, assigning to a fresh key appends it, and `Object.entries`
enumerates pairs in that order (the keys involved are never array indices, so
plain insertion order is the correct JS enumeration order).
-/

namespace GLS

/-! ## Insertion-ordered association lists (JS object semantics) -/

/-- Property access `m[k]`: the value at key `k`, if present. -/
def lookupA {α : Type} : List (String × α) → String → Option α
  | [], _ => none
  | (k', v) :: rest, k => if k' = k then some v else lookupA rest k

/-- Assignment `m[k] = v`: update in place if the key exists, else append. -/
def insertA {α : Type} : List (String × α) → String → α → List (String × α)
  | [], k, v => [(k, v)]
  | (k', v') :: rest, k, v =>
      if k' = k then (k, v) :: rest else (k', v') :: insertA rest k v

theorem lookupA_insertA {α : Type} (m : List (String × α)) (k k' : String) (v : α) :
    lookupA (insertA m k v) k' = if k = k' then some v else lookupA m k' := by
  induction m with
  | nil => simp [insertA, lookupA]
  | cons hd tl ih =>
      obtain ⟨kh, vh⟩ := hd
      by_cases hk : kh = k
      · subst hk
        by_cases hk' : kh = k' <;> simp [insertA, lookupA, hk', ih]
      · by_cases hk' : kh = k'
        · subst hk'
          simp [insertA, lookupA, hk, ih]
          rw [if_neg (fun h => hk h.symm)]
        · simp [insertA, lookupA, hk, hk', ih]

theorem insertA_insertA_same {α : Type} (m : List (String × α)) (k : String) (v w : α) :
    insertA (insertA m k v) k w = insertA m k w := by
  induction m with
  | nil => simp [insertA]
  | cons hd tl ih =>
      obtain ⟨kh, vh⟩ := hd
      by_cases hk : kh = k <;> simp [insertA, hk, ih]

/-! ## Data model (`src/types.ts`, with the fields the current code uses) -/

/-- A repository as produced by repo discovery (`owner`, `name`, optional
privacy flag; `isPrivate` is `none` when the field is absent). -/
structure Repo where
  owner : String
  name : String
  isPrivate : Option Bool := none
deriving DecidableEq, Repr

/-- One changed file inside a commit detail. -/
structure FileChange where
  filename : String
  additions : Nat
  deletions : Nat
  status : String
deriving DecidableEq, Repr

/-- The fetched payload for one commit: author date in ms since epoch
(`0` when the remote response carried no author date) and the changed files. -/
structure CommitDetail where
  sha : String
  date : Int
  files : List FileChange
deriving DecidableEq, Repr

/-- The persisted cache document (`Cache` in `src/types.ts`).
`commitDetails` maps a sha to `some detail` or to the tombstone `none`
(JSON `null`); a sha absent from the list has never been fetched. -/
structure Cache where
  version : Nat
  repos : List Repo
  completedRepos : List String
  commitsByRepo : List (String × List String)
  commitDetails : List (String × Option CommitDetail)
  prCountByRepo : List (String × Nat)
  completedPRRepos : List String
deriving DecidableEq, Repr

/-! ## `src/cache.ts` -/

def CACHE_VERSION : Nat := 3

/-- Function `emptyCache()` from `src/cache.ts`. -/
def emptyCache : Cache :=
  { version := CACHE_VERSION
    repos := []
    completedRepos := []
    commitsByRepo := []
    commitDetails := []
    prCountByRepo := []
    completedPRRepos := [] }

/-- The possible outcomes of reading the cache file from disk, as branched on
by `CacheStore.load`: the file may be missing, `readFileSync` may throw,
`JSON.parse` may throw, or a document may be parsed successfully. -/
inductive CacheFileRead where
  | missing
  | unreadable
  | unparseable
  | parsed (c : Cache)
deriving DecidableEq, Repr

/-- Method `CacheStore.load` from `src/cache.ts`: a total function — every failure
branch (missing file, read error, parse error via the `try/catch`, and the
version check) returns `emptyCache` instead of throwing. -/
def load : CacheFileRead → Cache
  | .missing => emptyCache
  | .unreadable => emptyCache
  | .unparseable => emptyCache
  | .parsed c => if c.version ≠ CACHE_VERSION then emptyCache else c

/-- The string key `` `${owner}/${repo}` `` used throughout the store. -/
def repoKey (owner repo : String) : String := owner ++ "/" ++ repo

/-- Method `CacheStore.isRepoComplete`. -/
def isRepoComplete (c : Cache) (owner repo : String) : Prop :=
  repoKey owner repo ∈ c.completedRepos

instance (c : Cache) (owner repo : String) : Decidable (isRepoComplete c owner repo) := by
  unfold isRepoComplete; infer_instance

/-- Method `CacheStore.markRepoComplete`: push the key unless already present. -/
def markRepoComplete (c : Cache) (owner repo : String) : Cache :=
  let key := repoKey owner repo
  if key ∈ c.completedRepos then c
  else { c with completedRepos := c.completedRepos ++ [key] }

/-- Method `CacheStore.getCommits`: stored sha list for the repo, `[]` if absent. -/
def getCommits (c : Cache) (owner repo : String) : List String :=
  (lookupA c.commitsByRepo (repoKey owner repo)).getD []

/-- Method `CacheStore.addCommits`: append the incoming shas that are not already
stored for the repo (dedup against the existing list via a `Set`). -/
def addCommits (c : Cache) (owner repo : String) (shas : List String) : Cache :=
  let key := repoKey owner repo
  let existing := (lookupA c.commitsByRepo key).getD []
  let newShas := shas.filter fun s => ¬ s ∈ existing
  { c with commitsByRepo := insertA c.commitsByRepo key (existing ++ newShas) }

/-- Method `CacheStore.hasCommitDetail`: the JS `sha in this.data.commitDetails`
key-presence test — true for tombstones (`null` values) as well. -/
def hasCommitDetail (c : Cache) (sha : String) : Prop :=
  (lookupA c.commitDetails sha).isSome = true

instance (c : Cache) (sha : String) : Decidable (hasCommitDetail c sha) := by
  unfold hasCommitDetail; infer_instance

/-- Method `CacheStore.setCommitDetail` (the value may be the tombstone `none`). -/
def setCommitDetail (c : Cache) (sha : String) (detail : Option CommitDetail) : Cache :=
  { c with commitDetails := insertA c.commitDetails sha detail }

/-- Method `CacheStore.isRepoPRComplete`. -/
def isRepoPRComplete (c : Cache) (owner repo : String) : Prop :=
  repoKey owner repo ∈ c.completedPRRepos

/-- Method `CacheStore.markRepoPRComplete`. -/
def markRepoPRComplete (c : Cache) (owner repo : String) : Cache :=
  let key := repoKey owner repo
  if key ∈ c.completedPRRepos then c
  else { c with completedPRRepos := c.completedPRRepos ++ [key] }

/-- Method `CacheStore.setPRCount`. -/
def setPRCount (c : Cache) (owner repo : String) (count : Nat) : Cache :=
  { c with prCountByRepo := insertA c.prCountByRepo (repoKey owner repo) count }

/-! ## Pipeline orchestration (`src/index.ts`, `getGithubLangStats`) -/

/-- Phase 2 filter: the repositories for which `collectCommitShas` is invoked
on a pass — exactly those not yet marked SHA-complete in the store. -/
def enumerationTargets (reposToProcess : List Repo) (cache : Cache) : List Repo :=
  reposToProcess.filter fun r => ¬ isRepoComplete cache r.owner r.name

/-- Body of the phase 2 loop for a single repository: merge the enumerated
shas, then mark the repository SHA-complete. `shasFor` stands for the remote
result of `collectCommitShas` for that repository. -/
def phase2Step (shasFor : String → String → List String) (cache : Cache) (r : Repo) : Cache :=
  markRepoComplete (addCommits cache r.owner r.name (shasFor r.owner r.name)) r.owner r.name

/-- One pass of phase 2: fold the loop body over the repositories that are not
yet SHA-complete. -/
def runPhase2 (cache : Cache) (reposToProcess : List Repo)
    (shasFor : String → String → List String) : Cache :=
  (enumerationTargets reposToProcess cache).foldl (phase2Step shasFor) cache

/-- One unit of phase 3 work (`type Work` in `src/index.ts`). -/
structure Work where
  owner : String
  repo : String
  sha : String
deriving DecidableEq, Repr

/-- Phase 3 work-list construction: every (repo, sha) pair from the store whose
sha is not yet a key of the commit-detail map (tombstone keys included). -/
def buildWorkList (reposToProcess : List Repo) (cache : Cache) : List Work :=
  reposToProcess.flatMap fun r =>
    ((getCommits cache r.owner r.name).filter fun sha => ¬ hasCommitDetail cache sha).map
      fun sha => { owner := r.owner, repo := r.name, sha := sha }

/-! ## `src/github-client.ts`: rate-limit state -/

/-- Constant `RATE_LIMIT_RESERVE` — requests always kept in reserve. -/
def RATE_LIMIT_RESERVE : Nat := 100

/-- The rate-limit fields of `GitHubClient`, with their field initializers.
The client has exactly one copy of these fields, read and written by every
request — GraphQL, REST and search alike. -/
structure RateState where
  rateLimitTotal : Nat := 5000
  rateLimitRemaining : Nat := 5000
  rateLimitReset : Int := 0
deriving DecidableEq, Repr

/-- The rate-relevant response headers: `x-ratelimit-limit`,
`x-ratelimit-remaining`, `x-ratelimit-reset` and `retry-after`
(each `none` when the header is absent). -/
structure RespHeaders where
  xRateLimitLimit : Option Nat := none
  xRateLimitRemaining : Option Nat := none
  xRateLimitReset : Option Int := none
  retryAfter : Option Nat := none
deriving DecidableEq, Repr

/-- Method `GitHubClient.updateRateLimitFromHeaders`: each field is overwritten by
the header value when the header is present, otherwise kept. -/
def updateRateLimitFromHeaders (s : RateState) (h : RespHeaders) : RateState :=
  { rateLimitTotal := h.xRateLimitLimit.getD s.rateLimitTotal
    rateLimitRemaining := h.xRateLimitRemaining.getD s.rateLimitRemaining
    rateLimitReset := h.xRateLimitReset.getD s.rateLimitReset }

/-- How a bulk (GraphQL / non-search REST) call records its response headers
into the client's single rate state (`this.updateRateLimitFromHeaders(res.headers)`
in `graphql`, `discoverReposViaRest` and `fetchCommitDetail`). -/
def recordBulkResponse (s : RateState) (h : RespHeaders) : RateState :=
  updateRateLimitFromHeaders s h

/-- How the search-API call `fetchPRCount` records its response headers: the
same `updateRateLimitFromHeaders` on the same single client state. -/
def recordSearchResponse (s : RateState) (h : RespHeaders) : RateState :=
  updateRateLimitFromHeaders s h

/-- Method `GitHubClient.throttle`, as the number of seconds the caller sleeps before
dispatching its request at epoch second `now`: `max(reset - now + 5, 5)` when
`remaining <= RATE_LIMIT_RESERVE`, else no wait. -/
def throttleWait (s : RateState) (now : Int) : Int :=
  if s.rateLimitRemaining ≤ RATE_LIMIT_RESERVE then
    max (s.rateLimitReset - now + 5) 5
  else 0

/-! ## `src/github-client.ts`: commit-detail and PR-count fetches

A fetch is modelled against the list of HTTP responses the server would give
to its successive attempts: the recursion of `fetchCommitDetail` /
`fetchPRCount` consumes one response per attempt. -/

/-- The parsed JSON body of a successful commit-detail response.
`authorDate` is `some` of the `Date.parse` result when
`json.commit?.author?.date` is a (truthy) date string, `none` when the date is
absent. -/
structure CommitJson where
  sha : String := ""
  authorDate : Option Int := none
  files : List FileChange := []
deriving DecidableEq, Repr

/-- One HTTP response: status, headers, and the two body shapes (each only
meaningful for a success of the corresponding endpoint). -/
structure HttpResponse where
  status : Nat
  headers : RespHeaders := {}
  commitJson : CommitJson := {}
  totalCount : Nat := 0
deriving DecidableEq, Repr

/-- Predicate `res.ok`: status in the 2xx range. -/
def statusOk (status : Nat) : Prop := 200 ≤ status ∧ status < 300

instance (status : Nat) : Decidable (statusOk status) := by
  unfold statusOk; infer_instance

/-- How `fetchCommitDetail` builds a `CommitDetail` from a success body:
`date` falls back to `0` when no author date is present, `files` to `[]`. -/
def commitDetailOfJson (j : CommitJson) : CommitDetail :=
  { sha := j.sha, date := j.authorDate.getD 0, files := j.files }

/-- Outcome of running a fetch against a list of responses. `waits` collects,
in order, the seconds slept before each secondary-rate-limit retry
(`retry-after` header, defaulting to 60). `exhausted` means the fetch was
still retrying when the provided responses ran out. -/
inductive FetchOutcome (α : Type) where
  | ok (value : α) (waits : List Nat)
  | err (status : Nat) (waits : List Nat)
  | exhausted (waits : List Nat)
deriving DecidableEq, Repr

/-- Prepend a retry wait to an outcome's wait list. -/
def FetchOutcome.afterWait {α : Type} (w : Nat) : FetchOutcome α → FetchOutcome α
  | .ok v ws => .ok v (w :: ws)
  | .err s ws => .err s (w :: ws)
  | .exhausted ws => .exhausted (w :: ws)

/-- Method `GitHubClient.fetchCommitDetail` run against the responses its successive
attempts receive: 404/422 resolve to the tombstone `none`; other non-2xx
statuses retry after `retry-after ?? 60` seconds when 429/403 (by a recursive
call with no attempt counter) and throw otherwise; a 2xx response is parsed. -/
def fetchCommitDetailRun : List HttpResponse → FetchOutcome (Option CommitDetail)
  | [] => .exhausted []
  | r :: rest =>
      if r.status = 404 ∨ r.status = 422 then .ok none []
      else if ¬ statusOk r.status then
        if r.status = 429 ∨ r.status = 403 then
          (fetchCommitDetailRun rest).afterWait (r.headers.retryAfter.getD 60)
        else .err r.status []
      else .ok (some (commitDetailOfJson r.commitJson)) []

/-- Method `GitHubClient.fetchPRCount` run the same way: 404/422 resolve to `0`;
429/403 wait `retry-after ?? 60` seconds and recurse with no attempt counter;
other non-2xx statuses throw; a 2xx response yields `total_count`. -/
def fetchPRCountRun : List HttpResponse → FetchOutcome Nat
  | [] => .exhausted []
  | r :: rest =>
      if r.status = 404 ∨ r.status = 422 then .ok 0 []
      else if ¬ statusOk r.status then
        if r.status = 429 ∨ r.status = 403 then
          (fetchPRCountRun rest).afterWait (r.headers.retryAfter.getD 60)
        else .err r.status []
      else .ok r.totalCount []

/-! ## `src/language-detector.ts` -/

/-- Table `EXT_MAP`: file extension (lower case) to language name, in source order. -/
def EXT_MAP : List (String × String) :=
  [(".ts", "TypeScript"), (".tsx", "TypeScript"), (".mts", "TypeScript"), (".cts", "TypeScript"),
   (".js", "JavaScript"), (".jsx", "JavaScript"), (".mjs", "JavaScript"), (".cjs", "JavaScript"),
   (".html", "HTML"), (".htm", "HTML"), (".css", "CSS"), (".scss", "SCSS"), (".sass", "Sass"),
   (".less", "Less"), (".svelte", "Svelte"), (".vue", "Vue"), (".astro", "Astro"),
   (".py", "Python"), (".rb", "Ruby"), (".go", "Go"), (".rs", "Rust"), (".java", "Java"),
   (".kt", "Kotlin"), (".kts", "Kotlin"), (".cs", "C#"), (".cpp", "C++"), (".cc", "C++"),
   (".cxx", "C++"), (".c", "C"), (".h", "C"), (".hpp", "C++"), (".swift", "Swift"),
   (".php", "PHP"), (".scala", "Scala"), (".clj", "Clojure"), (".cljs", "ClojureScript"),
   (".ex", "Elixir"), (".exs", "Elixir"), (".erl", "Erlang"), (".hrl", "Erlang"),
   (".hs", "Haskell"), (".lhs", "Haskell"), (".ml", "OCaml"), (".mli", "OCaml"),
   (".fs", "F#"), (".fsi", "F#"), (".fsx", "F#"), (".dart", "Dart"), (".lua", "Lua"),
   (".r", "R"), (".R", "R"), (".m", "MATLAB"), (".julia", "Julia"), (".jl", "Julia"),
   (".nim", "Nim"), (".zig", "Zig"), (".cr", "Crystal"), (".d", "D"),
   (".sh", "Shell"), (".bash", "Shell"), (".zsh", "Shell"), (".fish", "Shell"),
   (".ps1", "PowerShell"), (".psm1", "PowerShell"), (".bat", "Batchfile"), (".cmd", "Batchfile"),
   (".json", "JSON"), (".json5", "JSON5"), (".jsonc", "JSON"), (".yaml", "YAML"),
   (".yml", "YAML"), (".toml", "TOML"), (".xml", "XML"), (".csv", "CSV"), (".tsv", "TSV"),
   (".ini", "INI"), (".env", "Shell"),
   (".tf", "HCL"), (".tfvars", "HCL"), (".hcl", "HCL"), (".bicep", "Bicep"),
   (".dockerfile", "Dockerfile"),
   (".sql", "SQL"), (".pgsql", "SQL"), (".mysql", "SQL"),
   (".md", "Markdown"), (".mdx", "MDX"), (".rst", "reStructuredText"), (".tex", "TeX"),
   (".graphql", "GraphQL"), (".gql", "GraphQL"), (".proto", "Protocol Buffer"),
   (".nix", "Nix"), (".pkl", "Pkl"), (".wasm", "WebAssembly"), (".wat", "WebAssembly")]

/-- Table `FILENAME_MAP`: special extension-less filenames, in source order. -/
def FILENAME_MAP : List (String × String) :=
  [("Dockerfile", "Dockerfile"), ("Makefile", "Makefile"), ("Gemfile", "Ruby"),
   ("Rakefile", "Ruby"), ("Podfile", "Ruby"), ("Vagrantfile", "Ruby"), ("Brewfile", "Ruby"),
   (".eslintrc", "JSON"), (".prettierrc", "JSON"), (".babelrc", "JSON"),
   (".nvmrc", "Shell"), (".node-version", "Shell")]

/-- Table `EXCLUDED_LANGUAGES`: the default-excluded catch-all / config / doc set. -/
def EXCLUDED_LANGUAGES : List String :=
  ["JSON", "YAML", "TOML", "XML", "CSV", "TSV", "INI",
   "Markdown", "MDX", "reStructuredText", "TeX"]

/-- Expression `filename.split("/").pop()` — the characters after the last slash (the
whole string when it has no slash), computed by resetting the accumulator at
every `/`. -/
def basenameOf (cs : List Char) : List Char :=
  cs.foldl (fun acc c => if c = '/' then [] else acc ++ [c]) []

/-- Expression `basename.lastIndexOf(".")` over the character list, tracking the index of
the current head in `i`. -/
def lastIndexOfDotAux : List Char → Nat → Option Nat
  | [], _ => none
  | c :: rest, i =>
      match lastIndexOfDotAux rest (i + 1) with
      | some j => some j
      | none => if c = '.' then some i else none

def lastIndexOfDot (cs : List Char) : Option Nat := lastIndexOfDotAux cs 0

/-- Function `detectLanguage` from `src/language-detector.ts`: special filenames are
checked on the basename first, then the lower-cased extension (from the last
dot) is looked up. `toLowerCase` is modelled by ASCII `Char.toLower`, which
agrees with JS on the ASCII keys of `EXT_MAP`. -/
def detectLanguage (filename : String) : Option String :=
  let basename := basenameOf filename.data
  match lookupA FILENAME_MAP (String.mk basename) with
  | some lang => some lang
  | none =>
      match lastIndexOfDot basename with
      | none => none
      | some i => lookupA EXT_MAP (String.mk ((basename.drop i).map Char.toLower))

/-- Function `isExcludedLanguage`. -/
def isExcludedLanguage (language : String) : Prop := language ∈ EXCLUDED_LANGUAGES

instance (language : String) : Decidable (isExcludedLanguage language) := by
  unfold isExcludedLanguage; infer_instance

/-! ## `src/aggregator.ts` -/

/-- Zero-pad a number to the given width. -/
def padZero (width : Nat) (n : Nat) : String :=
  let s := toString n
  String.mk (List.replicate (width - s.length) '0') ++ s

/-- Proleptic-Gregorian date (year, month, day) of a days-since-epoch count,
the civil-from-days algorithm used by every `Date` implementation. -/
def civilFromDays (z0 : Int) : Int × Nat × Nat :=
  let z : Int := z0 + 719468
  let era : Int := Int.fdiv z 146097
  let doe : Nat := (z - era * 146097).toNat
  let yoe : Nat := (doe - doe / 1460 + doe / 36524 - doe / 146096) / 365
  let doy : Nat := doe - (365 * yoe + yoe / 4 - yoe / 100)
  let mp : Nat := (5 * doy + 2) / 153
  let d : Nat := doy - (153 * mp + 2) / 5 + 1
  let m : Nat := if mp < 10 then mp + 3 else mp - 9
  (era * 400 + yoe + (if m ≤ 2 then 1 else 0), m, d)

/-- Expression `new Date(ms).toISOString().split("T")[0]` — the calendar day (UTC) of a
millisecond timestamp as `YYYY-MM-DD`. -/
def toIsoDay (ms : Int) : String :=
  let day := Int.fdiv ms 86400000
  let ymd := civilFromDays day
  (if ymd.1 < 0 then "-" ++ padZero 6 (-ymd.1).toNat else padZero 4 ymd.1.toNat)
    ++ "-" ++ padZero 2 ymd.2.1 ++ "-" ++ padZero 2 ymd.2.2

/-- One repository's entry in the aggregated output (`RepoStats`): the
language map plus the optional fields added when available. -/
structure RepoStats where
  contributionsCountPerLanguage : List (String × Nat)
  commitDates : Option (List String) := none
  prCount : Option Nat := none
  isPrivate : Option Bool := none
deriving DecidableEq, Repr

/-- Run metadata. `generatedAt` (`new Date().toISOString()`, an external clock
read) is omitted: no property here depends on it. `excludedPRs` models the
presence of the spread-in `excludedPRs: true` field. -/
structure AggMeta where
  user : String
  totalCommitsProcessed : Nat
  totalRepos : Nat
  unit : String := "lines_changed"
  version : Option String := none
  excludedPRs : Bool := false
deriving DecidableEq, Repr

structure AggregatedStats where
  totals : List (String × Nat)
  byRepo : List (String × RepoStats)
  meta : AggMeta
deriving DecidableEq, Repr

/-- Mutable state of the per-repository loop in `aggregate`: the repository's
language accumulator and commit-date list, threaded together with the global
totals and the processed-commit counter. -/
structure RepoAcc where
  repoLangs : List (String × Nat)
  commitDates : List String
  totals : List (String × Nat)
  processed : Nat
deriving DecidableEq, Repr

/-- Body of the inner file loop of `aggregate`: skip files with no detected
language, default-excluded languages, and caller-excluded languages; otherwise
add `additions + deletions` to the repository and global accumulators. -/
def processFile (excludeLanguages : List String) (acc : RepoAcc) (f : FileChange) : RepoAcc :=
  match detectLanguage f.filename with
  | none => acc
  | some lang =>
      if isExcludedLanguage lang then acc
      else if lang ∈ excludeLanguages then acc
      else
        let lines := f.additions + f.deletions
        { acc with
          repoLangs := insertA acc.repoLangs lang ((lookupA acc.repoLangs lang).getD 0 + lines)
          totals := insertA acc.totals lang ((lookupA acc.totals lang).getD 0 + lines) }

/-- Body of the per-commit loop of `aggregate`: a sha whose detail is absent
or the tombstone is skipped (`if (!detail) continue`); a realized detail bumps
`totalCommitsProcessed`, contributes its date to `commitDates` when
`includeCommitDates` is set and the date is truthy (nonzero), and folds its
files through `processFile`. -/
def processSha (includeCommitDates : Bool) (excludeLanguages : List String)
    (commitDetails : List (String × Option CommitDetail)) (acc : RepoAcc)
    (sha : String) : RepoAcc :=
  match lookupA commitDetails sha with
  | some (some detail) =>
      let acc1 := { acc with processed := acc.processed + 1 }
      let acc2 :=
        if includeCommitDates ∧ detail.date ≠ 0 then
          { acc1 with commitDates := acc1.commitDates ++ [toIsoDay detail.date] }
        else acc1
      detail.files.foldl (processFile excludeLanguages) acc2
  | _ => acc

/-- Accumulator of the outer repository loop of `aggregate`. -/
structure AggAcc where
  totals : List (String × Nat)
  byRepo : List (String × RepoStats)
  processed : Nat
deriving DecidableEq, Repr

/-- Body of the outer repository loop of `aggregate`: process the repo's shas,
then record a `byRepo` entry only when at least one language line was counted,
attaching commit dates, PR count and privacy flag when available. -/
def processRepo (includeCommitDates includePRCounts : Bool)
    (excludeLanguages : List String) (commitDetails : List (String × Option CommitDetail))
    (prCountByRepo : List (String × Nat)) (repoMap : List (String × Repo))
    (acc : AggAcc) (entry : String × List String) : AggAcc :=
  let racc0 : RepoAcc :=
    { repoLangs := [], commitDates := [], totals := acc.totals, processed := acc.processed }
  let racc := entry.2.foldl (processSha includeCommitDates excludeLanguages commitDetails) racc0
  let acc1 : AggAcc := { acc with totals := racc.totals, processed := racc.processed }
  if racc.repoLangs = [] then acc1
  else
    let rd0 : RepoStats := { contributionsCountPerLanguage := racc.repoLangs }
    let rd1 :=
      if includeCommitDates ∧ racc.commitDates ≠ [] then
        { rd0 with commitDates := some racc.commitDates }
      else rd0
    let rd2 :=
      if includePRCounts then
        match lookupA prCountByRepo entry.1 with
        | some n => { rd1 with prCount := some n }
        | none => rd1
      else rd1
    let rd3 :=
      match lookupA repoMap entry.1 with
      | some repo =>
          match repo.isPrivate with
          | some b => { rd2 with isPrivate := some b }
          | none => rd2
      | none => rd2
    { acc1 with byRepo := insertA acc1.byRepo entry.1 rd3 }

/-- Expression `Object.entries(m).sort(([, a], [, b]) => b - a)`: sort of a counts map,
descending by count. JS `Array.prototype.sort` is required to be stable, and a
stable sort's output is unique, so any stable sort models it; insertion sort
is used because it is stable and structurally recursive. -/
def sortCountsDesc (m : List (String × Nat)) : List (String × Nat) :=
  List.insertionSort (fun x y => y.2 ≤ x.2) m

/-- The final `byRepo` pass: entries sorted by repository key
(`localeCompare`, modelled as the lexicographic order on strings; same stable
sort model), each entry's language map re-sorted descending, optional fields
carried over. -/
def sortByRepoEntries (byRepo : List (String × RepoStats)) : List (String × RepoStats) :=
  (List.insertionSort (fun x y => x.1 ≤ y.1) byRepo).map fun p =>
    (p.1, { p.2 with
            contributionsCountPerLanguage := sortCountsDesc p.2.contributionsCountPerLanguage })

/-- Function `aggregate` from `src/aggregator.ts`. -/
def aggregate (user : String) (commitsByRepo : List (String × List String))
    (commitDetails : List (String × Option CommitDetail))
    (excludeLanguages : List String) (includeCommitDates : Bool)
    (prCountByRepo : List (String × Nat)) (repos : List Repo)
    (includePRCounts : Bool) (version : Option String) : AggregatedStats :=
  let repoMap := repos.foldl (fun m r => insertA m (repoKey r.owner r.name) r) []
  let acc := commitsByRepo.foldl
    (processRepo includeCommitDates includePRCounts excludeLanguages commitDetails
      prCountByRepo repoMap)
    { totals := [], byRepo := [], processed := 0 }
  { totals := sortCountsDesc acc.totals
    byRepo := sortByRepoEntries acc.byRepo
    meta :=
      { user := user
        totalCommitsProcessed := acc.processed
        totalRepos := acc.byRepo.length
        version := version
        excludedPRs := ¬ includePRCounts } }

/-! ## Claims -/

/-- C1: evaluation of the fetches at the failing input. A secondary-rate-limit
response on the first attempt and again on the retry is *not* propagated as an
error: the recursion has no attempt counter, so three consecutive 429s produce
three 60-second waits and a fourth attempt that succeeds, for both
`fetchCommitDetail` and `fetchPRCount` — contradicting the claimed (and
comment-documented) exactly-one-retry bound. The non-retry parts of the claim
do hold and are evaluated alongside: 404/422 resolve to the tombstone (`none`
resp. `0`), any other non-success status is a hard error, and a present
`retry-after` header is honoured over the 60-second default. -/
theorem c1_secondary_limit_retry_is_unbounded :
    fetchCommitDetailRun
        [{ status := 429 }, { status := 429 }, { status := 429 },
         { status := 200, commitJson := { sha := "s", authorDate := none, files := [] } }]
      = .ok (some { sha := "s", date := 0, files := [] }) [60, 60, 60]
    ∧ fetchPRCountRun
        [{ status := 403 }, { status := 429 }, { status := 429 },
         { status := 200, totalCount := 7 }]
      = .ok 7 [60, 60, 60]
    ∧ fetchCommitDetailRun [{ status := 404 }] = .ok none []
    ∧ fetchCommitDetailRun [{ status := 422 }] = .ok none []
    ∧ fetchPRCountRun [{ status := 404 }] = .ok 0 []
    ∧ fetchCommitDetailRun [{ status := 500 }] = .err 500 []
    ∧ fetchCommitDetailRun
        [{ status := 429, headers := { retryAfter := some 17 } }, { status := 500 }]
      = .err 500 [17] := by
  decide

/-- C2 counterexample: the client holds a single rate-limit state, so
recording a search-API response (here `x-ratelimit-limit: 30`,
`x-ratelimit-remaining: 29`, `x-ratelimit-reset: 1000`) *does* alter the
counters that every bulk call's `throttle` reads: starting from the field
initializers, the recorded state differs, its remaining counter becomes the
search value 29, and a subsequent bulk call at epoch second 500 now waits 505
seconds where it previously would not have waited at all. -/
theorem c2_search_response_alters_bulk_counters :
    recordSearchResponse {}
        { xRateLimitLimit := some 30, xRateLimitRemaining := some 29,
          xRateLimitReset := some 1000, retryAfter := none }
      ≠ ({} : RateState)
    ∧ (recordSearchResponse {}
        { xRateLimitLimit := some 30, xRateLimitRemaining := some 29,
          xRateLimitReset := some 1000, retryAfter := none }).rateLimitRemaining = 29
    ∧ throttleWait
        (recordSearchResponse {}
          { xRateLimitLimit := some 30, xRateLimitRemaining := some 29,
            xRateLimitReset := some 1000, retryAfter := none }) 500 = 505
    ∧ throttleWait {} 500 = 0 := by
  decide

/-- C2 (amended): the rate tracker is a single shared quota state — a
search-API response is recorded by exactly the same update as a bulk response
into the same state, and present `remaining` / `reset` headers from a search
response overwrite the counters that subsequent bulk calls read. -/
theorem c2_single_shared_rate_state (s : RateState) (h : RespHeaders) (n : Nat) (t : Int) :
    recordSearchResponse s h = recordBulkResponse s h
    ∧ (h.xRateLimitRemaining = some n → (recordSearchResponse s h).rateLimitRemaining = n)
    ∧ (h.xRateLimitReset = some t → (recordSearchResponse s h).rateLimitReset = t) := by
  refine ⟨rfl, ?_, ?_⟩
  · intro hn
    simp [recordSearchResponse, updateRateLimitFromHeaders, hn]
  · intro ht
    simp [recordSearchResponse, updateRateLimitFromHeaders, ht]

theorem c2_single_shared_rate_state_witness :
    ({ xRateLimitLimit := some 30, xRateLimitRemaining := some 29,
       xRateLimitReset := some 1000, retryAfter := none } : RespHeaders).xRateLimitRemaining
      = some 29
    ∧ recordSearchResponse {}
        { xRateLimitLimit := some 30, xRateLimitRemaining := some 29,
          xRateLimitReset := some 1000, retryAfter := none }
      = recordBulkResponse {}
        { xRateLimitLimit := some 30, xRateLimitRemaining := some 29,
          xRateLimitReset := some 1000, retryAfter := none }
    ∧ (recordSearchResponse {}
        { xRateLimitLimit := some 30, xRateLimitRemaining := some 29,
          xRateLimitReset := some 1000, retryAfter := none }).rateLimitRemaining = 29
    ∧ (recordSearchResponse {}
        { xRateLimitLimit := some 30, xRateLimitRemaining := some 29,
          xRateLimitReset := some 1000, retryAfter := none }).rateLimitReset = 1000 := by
  have h := c2_single_shared_rate_state {}
    { xRateLimitLimit := some 30, xRateLimitRemaining := some 29,
      xRateLimitReset := some 1000, retryAfter := none } 29 1000
  exact ⟨rfl, h.1, h.2.1 rfl, h.2.2 rfl⟩

/-- C3: the rate gate. The wait is exactly
`max(resetEpoch - now + 5, 5)` seconds when `remaining <= RATE_LIMIT_RESERVE`
and `0` otherwise (the gate returns immediately); moreover whenever the gate
waits, the request is not dispatched before the clock reaches
`resetEpoch + 5` (the safety margin past the reset). -/
theorem c3_throttle_gate (s : RateState) (now : Int) :
    throttleWait s now =
      (if s.rateLimitRemaining ≤ RATE_LIMIT_RESERVE then
        max (s.rateLimitReset - now + 5) 5 else 0)
    ∧ (s.rateLimitRemaining ≤ RATE_LIMIT_RESERVE →
        s.rateLimitReset + 5 ≤ now + throttleWait s now) := by
  refine ⟨rfl, ?_⟩
  intro hle
  unfold throttleWait
  rw [if_pos hle]
  have hmax : s.rateLimitReset - now + 5 ≤ max (s.rateLimitReset - now + 5) 5 :=
    le_max_left _ _
  omega

theorem c3_throttle_gate_witness :
    ({ rateLimitTotal := 5000, rateLimitRemaining := 100, rateLimitReset := 1000 } :
        RateState).rateLimitRemaining ≤ RATE_LIMIT_RESERVE
    ∧ throttleWait
        { rateLimitTotal := 5000, rateLimitRemaining := 100, rateLimitReset := 1000 } 0 = 1005
    ∧ (1000 : Int) + 5 ≤ 0 + throttleWait
        { rateLimitTotal := 5000, rateLimitRemaining := 100, rateLimitReset := 1000 } 0 := by
  have h := c3_throttle_gate
    { rateLimitTotal := 5000, rateLimitRemaining := 100, rateLimitReset := 1000 } 0
  exact ⟨by decide, by rw [h.1]; decide, h.2 (by decide)⟩

/-- C5: loading a document with a mismatched version, or an unreadable or
unparseable cache file, yields the empty store — whose repository list,
sha lists, detail map, PR counts and completion flags are all empty, so
nothing of the old contents survives — and `load` is a total function (every
failure branch returns rather than throws). -/
theorem c5_load_failure_yields_empty_store (c : Cache) (h : c.version ≠ CACHE_VERSION) :
    load (.parsed c) = emptyCache
    ∧ load .unreadable = emptyCache
    ∧ load .unparseable = emptyCache
    ∧ load .missing = emptyCache
    ∧ emptyCache.repos = []
    ∧ emptyCache.commitsByRepo = []
    ∧ emptyCache.commitDetails = []
    ∧ emptyCache.completedRepos = []
    ∧ emptyCache.prCountByRepo = []
    ∧ emptyCache.completedPRRepos = [] := by
  refine ⟨?_, rfl, rfl, rfl, rfl, rfl, rfl, rfl, rfl, rfl⟩
  simp [load, h]

theorem c5_load_failure_yields_empty_store_witness :
    ({ version := 2, repos := [{ owner := "o", name := "r", isPrivate := none }],
       completedRepos := ["o/r"], commitsByRepo := [("o/r", ["s1"])],
       commitDetails := [("s1", none)], prCountByRepo := [("o/r", 4)],
       completedPRRepos := ["o/r"] } : Cache).version ≠ CACHE_VERSION
    ∧ load (.parsed
        { version := 2, repos := [{ owner := "o", name := "r", isPrivate := none }],
          completedRepos := ["o/r"], commitsByRepo := [("o/r", ["s1"])],
          commitDetails := [("s1", none)], prCountByRepo := [("o/r", 4)],
          completedPRRepos := ["o/r"] }) = emptyCache := by
  have h := c5_load_failure_yields_empty_store
    { version := 2, repos := [{ owner := "o", name := "r", isPrivate := none }],
      completedRepos := ["o/r"], commitsByRepo := [("o/r", ["s1"])],
      commitDetails := [("s1", none)], prCountByRepo := [("o/r", 4)],
      completedPRRepos := ["o/r"] } (by decide)
  exact ⟨by decide, h.1⟩

/-! ### Helper lemmas on the store operations -/

theorem filter_not_mem_append_self (l E : List String) :
    l.filter (fun s => ¬ s ∈ E ++ l.filter (fun s => ¬ s ∈ E)) = [] := by
  rw [List.filter_eq_nil_iff]
  intro s hs
  simp only [List.mem_append, List.mem_filter, decide_eq_true_eq, not_not]
  by_cases hmem : s ∈ E
  · exact Or.inl hmem
  · exact Or.inr ⟨hs, by simpa using hmem⟩

theorem addCommits_self_idem (c : Cache) (o r : String) (l : List String) :
    addCommits (addCommits c o r l) o r l = addCommits c o r l := by
  simp only [addCommits, lookupA_insertA, if_pos, Option.getD_some,
    filter_not_mem_append_self, List.append_nil, insertA_insertA_same]

theorem markRepoComplete_sets (c : Cache) (o r : String) :
    isRepoComplete (markRepoComplete c o r) o r := by
  unfold markRepoComplete isRepoComplete
  by_cases h : repoKey o r ∈ c.completedRepos
  · simp [h]
  · simp [h]

theorem markRepoComplete_mono (c : Cache) (o r o' r' : String)
    (h : isRepoComplete c o r) : isRepoComplete (markRepoComplete c o' r') o r := by
  unfold markRepoComplete isRepoComplete at *
  by_cases hc : repoKey o' r' ∈ c.completedRepos
  · simpa [hc]
  · simp only [hc, if_false, List.mem_append]
    exact Or.inl h

theorem addCommits_completedRepos (c : Cache) (o r : String) (shas : List String) :
    (addCommits c o r shas).completedRepos = c.completedRepos := rfl

theorem setCommitDetail_completedRepos (c : Cache) (sha : String)
    (d : Option CommitDetail) : (setCommitDetail c sha d).completedRepos = c.completedRepos := rfl

theorem phase2Step_sets (f : String → String → List String) (c : Cache) (r : Repo) :
    isRepoComplete (phase2Step f c r) r.owner r.name :=
  markRepoComplete_sets _ _ _

theorem phase2Step_mono (f : String → String → List String) (c : Cache) (r : Repo)
    (o n : String) (h : isRepoComplete c o n) : isRepoComplete (phase2Step f c r) o n := by
  unfold phase2Step
  apply markRepoComplete_mono
  unfold isRepoComplete at *
  rw [addCommits_completedRepos]
  exact h

theorem foldl_phase2_complete (f : String → String → List String) (targets : List Repo)
    (cache : Cache) (p : Repo)
    (h : isRepoComplete cache p.owner p.name ∨ p ∈ targets) :
    isRepoComplete (targets.foldl (phase2Step f) cache) p.owner p.name := by
  induction targets generalizing cache with
  | nil => exact h.resolve_right (by simp)
  | cons hd tl ih =>
      simp only [List.foldl_cons]
      apply ih
      rcases h with hc | hm
      · exact Or.inl (phase2Step_mono f cache hd p.owner p.name hc)
      · rcases List.mem_cons.mp hm with heq | htl
        · subst heq
          exact Or.inl (phase2Step_sets f cache p)
        · exact Or.inr htl

theorem runPhase2_completes_all (cache : Cache) (repos : List Repo)
    (f : String → String → List String) (p : Repo) (hp : p ∈ repos) :
    isRepoComplete (runPhase2 cache repos f) p.owner p.name := by
  unfold runPhase2
  apply foldl_phase2_complete
  by_cases hc : isRepoComplete cache p.owner p.name
  · exact Or.inl hc
  · refine Or.inr (List.mem_filter.mpr ⟨hp, ?_⟩)
    simpa using hc

theorem enumerationTargets_empty_after_pass (cache : Cache) (repos : List Repo)
    (f : String → String → List String) :
    enumerationTargets repos (runPhase2 cache repos f) = [] := by
  unfold enumerationTargets
  rw [List.filter_eq_nil_iff]
  intro r hr
  simp only [decide_eq_true_eq, not_not]
  exact runPhase2_completes_all cache repos f r hr

/-- C4: merge contract of `addCommits`. Starting from a repo with no stored
shas, adding `[a, b]` then `[b, c]` (distinct shas) stores exactly
`[a, b, c]`: the duplicate `b` is dropped on the second insert and each sha
keeps the position of its first occurrence; and re-adding any sha list is a
no-op (idempotent merge). -/
theorem c4_addCommits_merge (c0 : Cache) (o r a b c : String) (l : List String)
    (hempty : getCommits c0 o r = []) (_hab : a ≠ b) (hac : a ≠ c) (hbc : b ≠ c) :
    getCommits (addCommits (addCommits c0 o r [a, b]) o r [b, c]) o r = [a, b, c]
    ∧ addCommits (addCommits c0 o r l) o r l = addCommits c0 o r l := by
  constructor
  · have hE : (lookupA c0.commitsByRepo (repoKey o r)).getD [] = [] := hempty
    simp [getCommits, addCommits, hE, lookupA_insertA, List.filter,
      Ne.symm hac, Ne.symm hbc]
  · exact addCommits_self_idem c0 o r l

theorem c4_addCommits_merge_witness :
    getCommits emptyCache "o" "r" = []
    ∧ ("s1" : String) ≠ "s2" ∧ ("s1" : String) ≠ "s3" ∧ ("s2" : String) ≠ "s3"
    ∧ getCommits (addCommits (addCommits emptyCache "o" "r" ["s1", "s2"]) "o" "r"
        ["s2", "s3"]) "o" "r" = ["s1", "s2", "s3"]
    ∧ addCommits (addCommits emptyCache "o" "r" ["s1", "s2"]) "o" "r" ["s1", "s2"]
        = addCommits emptyCache "o" "r" ["s1", "s2"] := by
  have h := c4_addCommits_merge emptyCache "o" "r" "s1" "s2" "s3" ["s1", "s2"]
    (by decide) (by decide) (by decide) (by decide)
  exact ⟨by decide, by decide, by decide, by decide, h.1, h.2⟩

/-- C6: a sha that is a key of the commit-detail map — real detail or
tombstone alike — never appears in the phase 3 work list built over the same
store, and stays a key under any further `setCommitDetail` write, so it is
terminal on every subsequent pass. -/
theorem c6_fetched_sha_terminal (cache : Cache) (repos : List Repo) (sha : String)
    (hfetched : hasCommitDetail cache sha) :
    (∀ w ∈ buildWorkList repos cache, w.sha ≠ sha)
    ∧ (∀ sha' d, hasCommitDetail (setCommitDetail cache sha' d) sha) := by
  constructor
  · intro w hw heq
    simp only [buildWorkList, List.mem_flatMap, List.mem_map, List.mem_filter] at hw
    obtain ⟨r, hr, s, ⟨hs, hns⟩, hws⟩ := hw
    have hs2 : s = sha := by rw [← hws] at heq; exact heq
    simp only [decide_eq_true_eq] at hns
    exact hns (hs2 ▸ hfetched)
  · intro sha' d
    unfold hasCommitDetail setCommitDetail at *
    simp only [lookupA_insertA]
    by_cases h : sha' = sha
    · simp [h]
    · simpa [h] using hfetched

theorem c6_fetched_sha_terminal_witness :
    hasCommitDetail
      { version := 3, repos := [], completedRepos := [],
        commitsByRepo := [("o/r", ["s1", "s2"])], commitDetails := [("s1", none)],
        prCountByRepo := [], completedPRRepos := [] } "s1"
    ∧ buildWorkList [{ owner := "o", name := "r", isPrivate := none }]
        { version := 3, repos := [], completedRepos := [],
          commitsByRepo := [("o/r", ["s1", "s2"])], commitDetails := [("s1", none)],
          prCountByRepo := [], completedPRRepos := [] }
        = [{ owner := "o", repo := "r", sha := "s2" }]
    ∧ ({ owner := "o", repo := "r", sha := "s2" } : Work).sha ≠ "s1"
    ∧ hasCommitDetail
        (setCommitDetail
          { version := 3, repos := [], completedRepos := [],
            commitsByRepo := [("o/r", ["s1", "s2"])], commitDetails := [("s1", none)],
            prCountByRepo := [], completedPRRepos := [] }
          "s2" (some { sha := "s2", date := 0, files := [] })) "s1" := by
  have h := c6_fetched_sha_terminal
    { version := 3, repos := [], completedRepos := [],
      commitsByRepo := [("o/r", ["s1", "s2"])], commitDetails := [("s1", none)],
      prCountByRepo := [], completedPRRepos := [] }
    [{ owner := "o", name := "r", isPrivate := none }] "s1" (by decide)
  exact ⟨by decide, by decide,
    h.1 { owner := "o", repo := "r", sha := "s2" } (by decide),
    h.2 "s2" (some { sha := "s2", date := 0, files := [] })⟩

/-- C9: SHA-enumeration completion is monotone and terminal. Once a repository
is complete: marking any repository (itself included) never unsets it and
re-marking it is a no-op; merging shas or writing commit details never unsets
it; it is never among the repositories phase 2 enumerates; and after a full
phase 2 pass, a subsequent pass over the resulting store enumerates nothing at
all. -/
theorem c9_sha_completion_monotone (cache : Cache) (o n : String)
    (hc : isRepoComplete cache o n) :
    (∀ o' n', isRepoComplete (markRepoComplete cache o' n') o n)
    ∧ markRepoComplete cache o n = cache
    ∧ (∀ o' n' shas, isRepoComplete (addCommits cache o' n' shas) o n)
    ∧ (∀ sha d, isRepoComplete (setCommitDetail cache sha d) o n)
    ∧ (∀ repos (ip : Option Bool),
        ({ owner := o, name := n, isPrivate := ip } : Repo) ∉ enumerationTargets repos cache)
    ∧ (∀ repos f, enumerationTargets repos (runPhase2 cache repos f) = []) := by
  refine ⟨fun o' n' => markRepoComplete_mono cache o n o' n' hc, ?_, ?_, ?_, ?_, ?_⟩
  · unfold isRepoComplete at hc
    unfold markRepoComplete
    simp [hc]
  · intro o' n' shas
    unfold isRepoComplete at *
    rw [addCommits_completedRepos]
    exact hc
  · intro sha d
    unfold isRepoComplete at *
    rw [setCommitDetail_completedRepos]
    exact hc
  · intro repos ip hmem
    have := (List.mem_filter.mp hmem).2
    simp only [decide_eq_true_eq] at this
    exact this hc
  · intro repos f
    exact enumerationTargets_empty_after_pass cache repos f

theorem c9_sha_completion_monotone_witness :
    isRepoComplete
      { version := 3, repos := [], completedRepos := ["o/r"], commitsByRepo := [],
        commitDetails := [], prCountByRepo := [], completedPRRepos := [] } "o" "r"
    ∧ isRepoComplete
        (markRepoComplete
          { version := 3, repos := [], completedRepos := ["o/r"], commitsByRepo := [],
            commitDetails := [], prCountByRepo := [], completedPRRepos := [] } "x" "y")
        "o" "r"
    ∧ markRepoComplete
        { version := 3, repos := [], completedRepos := ["o/r"], commitsByRepo := [],
          commitDetails := [], prCountByRepo := [], completedPRRepos := [] } "o" "r"
        = { version := 3, repos := [], completedRepos := ["o/r"], commitsByRepo := [],
            commitDetails := [], prCountByRepo := [], completedPRRepos := [] }
    ∧ ({ owner := "o", name := "r", isPrivate := none } : Repo) ∉
        enumerationTargets [{ owner := "o", name := "r", isPrivate := none }]
          { version := 3, repos := [], completedRepos := ["o/r"], commitsByRepo := [],
            commitDetails := [], prCountByRepo := [], completedPRRepos := [] }
    ∧ enumerationTargets [{ owner := "o", name := "r", isPrivate := none }]
        (runPhase2
          { version := 3, repos := [], completedRepos := ["o/r"], commitsByRepo := [],
            commitDetails := [], prCountByRepo := [], completedPRRepos := [] }
          [{ owner := "o", name := "r", isPrivate := none }] (fun _ _ => ["s1"])) = [] := by
  have h := c9_sha_completion_monotone
    { version := 3, repos := [], completedRepos := ["o/r"], commitsByRepo := [],
      commitDetails := [], prCountByRepo := [], completedPRRepos := [] } "o" "r" (by decide)
  exact ⟨by decide, h.1 "x" "y", h.2.1, h.2.2.2.2.1 _ none,
    h.2.2.2.2.2 [{ owner := "o", name := "r", isPrivate := none }] (fun _ _ => ["s1"])⟩

/-! ### Helper lemmas on the aggregation output -/

theorem sortCountsDesc_sorted (m : List (String × Nat)) :
    List.Pairwise (fun x y : String × Nat => y.2 ≤ x.2) (sortCountsDesc m) := by
  haveI : IsTotal (String × Nat) (fun x y => y.2 ≤ x.2) := ⟨fun a b => le_total b.2 a.2⟩
  haveI : IsTrans (String × Nat) (fun x y => y.2 ≤ x.2) :=
    ⟨fun _ _ _ hab hbc => le_trans hbc hab⟩
  exact List.sorted_insertionSort _ m

theorem sortByRepoEntries_key_sorted (l : List (String × RepoStats)) :
    List.Pairwise (fun x y : String × RepoStats => x.1 ≤ y.1) (sortByRepoEntries l) := by
  unfold sortByRepoEntries
  rw [List.pairwise_map]
  haveI : IsTotal (String × RepoStats) (fun x y => x.1 ≤ y.1) := ⟨fun a b => le_total a.1 b.1⟩
  haveI : IsTrans (String × RepoStats) (fun x y => x.1 ≤ y.1) :=
    ⟨fun _ _ _ hab hbc => le_trans hab hbc⟩
  exact List.sorted_insertionSort _ l

theorem sortByRepoEntries_langs_sorted (l : List (String × RepoStats))
    (p : String × RepoStats) (hp : p ∈ sortByRepoEntries l) :
    List.Pairwise (fun x y : String × Nat => y.2 ≤ x.2)
      p.2.contributionsCountPerLanguage := by
  unfold sortByRepoEntries at hp
  rw [List.mem_map] at hp
  obtain ⟨q, _hq, hpq⟩ := hp
  rw [← hpq]
  exact sortCountsDesc_sorted _

/-- C7: the aggregation example. One commit with a `.ts` file (+10/−2) and one
with a `.json` file (+5/−0) under repo `o/r`, default exclusions: the totals
are exactly TypeScript 12 (lines = additions + deletions; JSON is
default-excluded) and `byRepo` maps `o/r` to the same single-language map;
additionally excluding TypeScript empties the totals. -/
theorem c7_aggregation_example :
    (aggregate "u" [("o/r", ["s1", "s2"])]
        [("s1", some { sha := "s1", date := 0, files :=
            [{ filename := "file.ts", additions := 10, deletions := 2, status := "modified" }] }),
         ("s2", some { sha := "s2", date := 0, files :=
            [{ filename := "data.json", additions := 5, deletions := 0, status := "modified" }] })]
        [] true [] [] true none).totals = [("TypeScript", 12)]
    ∧ lookupA (aggregate "u" [("o/r", ["s1", "s2"])]
        [("s1", some { sha := "s1", date := 0, files :=
            [{ filename := "file.ts", additions := 10, deletions := 2, status := "modified" }] }),
         ("s2", some { sha := "s2", date := 0, files :=
            [{ filename := "data.json", additions := 5, deletions := 0, status := "modified" }] })]
        [] true [] [] true none).byRepo "o/r"
      = some { contributionsCountPerLanguage := [("TypeScript", 12)] }
    ∧ (aggregate "u" [("o/r", ["s1", "s2"])]
        [("s1", some { sha := "s1", date := 0, files :=
            [{ filename := "file.ts", additions := 10, deletions := 2, status := "modified" }] }),
         ("s2", some { sha := "s2", date := 0, files :=
            [{ filename := "data.json", additions := 5, deletions := 0, status := "modified" }] })]
        ["TypeScript"] true [] [] true none).totals = [] := by
  decide

/-- C8: in every aggregation output, the global totals and every repository's
language map are ordered descending by line count, and the `byRepo` keys are
in lexicographic order; on the spec's example counts (Go 5, Rust 50,
Python 20) the output key order is Rust, Python, Go. -/
theorem c8_output_sorted (user : String) (cbr : List (String × List String))
    (cds : List (String × Option CommitDetail)) (excl : List String) (inc : Bool)
    (pr : List (String × Nat)) (repos : List Repo) (incPR : Bool) (ver : Option String) :
    List.Pairwise (fun x y : String × Nat => y.2 ≤ x.2)
      (aggregate user cbr cds excl inc pr repos incPR ver).totals
    ∧ List.Pairwise (fun x y : String × RepoStats => x.1 ≤ y.1)
      (aggregate user cbr cds excl inc pr repos incPR ver).byRepo
    ∧ (∀ p ∈ (aggregate user cbr cds excl inc pr repos incPR ver).byRepo,
        List.Pairwise (fun x y : String × Nat => y.2 ≤ x.2)
          p.2.contributionsCountPerLanguage)
    ∧ (aggregate "u" [("o/r", ["s1"])]
        [("s1", some { sha := "s1", date := 0, files :=
            [{ filename := "x.go", additions := 5, deletions := 0, status := "m" },
             { filename := "y.rs", additions := 30, deletions := 20, status := "m" },
             { filename := "z.py", additions := 20, deletions := 0, status := "m" }] })]
        [] true [] [] true none).totals = [("Rust", 50), ("Python", 20), ("Go", 5)] := by
  refine ⟨sortCountsDesc_sorted _, sortByRepoEntries_key_sorted _, ?_, by decide⟩
  intro p hp
  exact sortByRepoEntries_langs_sorted _ p hp

theorem c8_output_sorted_witness :
    List.Pairwise (fun x y : String × Nat => y.2 ≤ x.2)
      (aggregate "u" [("o/r", ["s1"])]
        [("s1", some { sha := "s1", date := 0, files :=
            [{ filename := "x.go", additions := 5, deletions := 0, status := "m" },
             { filename := "y.rs", additions := 30, deletions := 20, status := "m" },
             { filename := "z.py", additions := 20, deletions := 0, status := "m" }] })]
        [] true [] [] true none).totals
    ∧ List.Pairwise (fun x y : String × RepoStats => x.1 ≤ y.1)
      (aggregate "u" [("o/r", ["s1"])]
        [("s1", some { sha := "s1", date := 0, files :=
            [{ filename := "x.go", additions := 5, deletions := 0, status := "m" },
             { filename := "y.rs", additions := 30, deletions := 20, status := "m" },
             { filename := "z.py", additions := 20, deletions := 0, status := "m" }] })]
        [] true [] [] true none).byRepo
    ∧ List.Pairwise (fun x y : String × Nat => y.2 ≤ x.2)
        [("Rust", 50), ("Python", 20), ("Go", 5)]
    ∧ (aggregate "u" [("o/r", ["s1"])]
        [("s1", some { sha := "s1", date := 0, files :=
            [{ filename := "x.go", additions := 5, deletions := 0, status := "m" },
             { filename := "y.rs", additions := 30, deletions := 20, status := "m" },
             { filename := "z.py", additions := 20, deletions := 0, status := "m" }] })]
        [] true [] [] true none).totals = [("Rust", 50), ("Python", 20), ("Go", 5)] := by
  have h := c8_output_sorted "u" [("o/r", ["s1"])]
    [("s1", some { sha := "s1", date := 0, files :=
        [{ filename := "x.go", additions := 5, deletions := 0, status := "m" },
         { filename := "y.rs", additions := 30, deletions := 20, status := "m" },
         { filename := "z.py", additions := 20, deletions := 0, status := "m" }] })]
    [] true [] [] true none
  refine ⟨h.1, h.2.1, ?_, h.2.2.2⟩
  exact h.2.2.1
    ("o/r", { contributionsCountPerLanguage := [("Rust", 50), ("Python", 20), ("Go", 5)] })
    (by decide)

/-! ### Helper lemmas for the commit-date collection -/

theorem processFile_dates_processed (excl : List String) (acc : RepoAcc) (f : FileChange) :
    (processFile excl acc f).commitDates = acc.commitDates
    ∧ (processFile excl acc f).processed = acc.processed := by
  unfold processFile
  cases detectLanguage f.filename with
  | none => exact ⟨rfl, rfl⟩
  | some lang =>
      by_cases h1 : isExcludedLanguage lang
      · simp [h1]
      · by_cases h2 : lang ∈ excl <;> simp [h1, h2]

theorem foldl_processFile_dates_processed (excl : List String) (fs : List FileChange)
    (acc : RepoAcc) :
    (fs.foldl (processFile excl) acc).commitDates = acc.commitDates
    ∧ (fs.foldl (processFile excl) acc).processed = acc.processed := by
  induction fs generalizing acc with
  | nil => exact ⟨rfl, rfl⟩
  | cons hd tl ih =>
      simp only [List.foldl_cons]
      have h := processFile_dates_processed excl acc hd
      have h2 := ih (processFile excl acc hd)
      exact ⟨h2.1.trans h.1, h2.2.trans h.2⟩

/-- C10: a realized commit detail whose author date is the fallback `0` is
skipped by the commit-date collection even with `includeCommitDates = true`
(the JS truthiness test `detail.date` fails on `0`), while the commit still
bumps `totalCommitsProcessed` and its files are still folded into the
language accumulators; concretely, aggregating a single date-0 TypeScript
commit yields a `byRepo` entry with no `commitDates` field, counted lines 12
and one processed commit. -/
theorem c10_zero_date_commit (excl : List String)
    (cds : List (String × Option CommitDetail)) (acc : RepoAcc) (sha : String)
    (detail : CommitDetail) (hlk : lookupA cds sha = some (some detail))
    (hdate : detail.date = 0) :
    processSha true excl cds acc sha
      = detail.files.foldl (processFile excl) { acc with processed := acc.processed + 1 }
    ∧ (processSha true excl cds acc sha).commitDates = acc.commitDates
    ∧ (processSha true excl cds acc sha).processed = acc.processed + 1
    ∧ (aggregate "u" [("o/r", ["s1"])]
        [("s1", some { sha := "s1", date := 0, files :=
            [{ filename := "file.ts", additions := 10, deletions := 2,
               status := "modified" }] })]
        [] true [] [] true none).byRepo
      = [("o/r", { contributionsCountPerLanguage := [("TypeScript", 12)] })]
    ∧ (aggregate "u" [("o/r", ["s1"])]
        [("s1", some { sha := "s1", date := 0, files :=
            [{ filename := "file.ts", additions := 10, deletions := 2,
               status := "modified" }] })]
        [] true [] [] true none).meta.totalCommitsProcessed = 1 := by
  have h1 : processSha true excl cds acc sha
      = detail.files.foldl (processFile excl) { acc with processed := acc.processed + 1 } := by
    unfold processSha
    rw [hlk]
    simp [hdate]
  refine ⟨h1, ?_, ?_, by decide, by decide⟩
  · rw [h1]
    exact (foldl_processFile_dates_processed excl detail.files _).1
  · rw [h1]
    exact (foldl_processFile_dates_processed excl detail.files _).2

theorem c10_zero_date_commit_witness :
    lookupA [("s1", some ({ sha := "s1", date := 0, files :=
        [{ filename := "file.ts", additions := 10, deletions := 2,
           status := "modified" }] } : CommitDetail))] "s1"
      = some (some { sha := "s1", date := 0, files :=
        [{ filename := "file.ts", additions := 10, deletions := 2,
           status := "modified" }] })
    ∧ ({ sha := "s1", date := 0, files :=
        [{ filename := "file.ts", additions := 10, deletions := 2,
           status := "modified" }] } : CommitDetail).date = 0
    ∧ (processSha true []
        [("s1", some { sha := "s1", date := 0, files :=
            [{ filename := "file.ts", additions := 10, deletions := 2,
               status := "modified" }] })]
        { repoLangs := [], commitDates := [], totals := [], processed := 0 }
        "s1").commitDates = []
    ∧ (processSha true []
        [("s1", some { sha := "s1", date := 0, files :=
            [{ filename := "file.ts", additions := 10, deletions := 2,
               status := "modified" }] })]
        { repoLangs := [], commitDates := [], totals := [], processed := 0 }
        "s1").processed = 1 := by
  have h := c10_zero_date_commit []
    [("s1", some { sha := "s1", date := 0, files :=
        [{ filename := "file.ts", additions := 10, deletions := 2,
           status := "modified" }] })]
    { repoLangs := [], commitDates := [], totals := [], processed := 0 }
    "s1"
    { sha := "s1", date := 0, files :=
        [{ filename := "file.ts", additions := 10, deletions := 2,
           status := "modified" }] }
    (by decide) rfl
  exact ⟨by decide, rfl, h.2.1, h.2.2.1⟩

end GLS
